import Mathlib

/-!
# Verification of the traffic-tracking core

Shallow embedding of the tracking / kinematics / counting / color-classification
layer of the repository (`backend/core/speed_estimator.py`,
`backend/core/color_detector.py`, `backend/core/video_processor.py`),
together with proofs of its specification properties.

Modelling conventions:
* Python `int` becomes `ℤ`; Python `float` arithmetic is modelled as exact
  real (`ℝ`) respectively rational (`ℚ`) arithmetic.
* A Python `dict` (insertion-ordered since 3.7) becomes an association list
  `List (ℤ × α)` kept in insertion order.
* A Python `set` becomes a `Finset`.
* `np.sqrt` becomes `Real.sqrt`.  Comparisons of Euclidean distances are
  implemented on squared distances: `Real.sqrt` is strictly monotone on
  nonnegatives, so `sqrt d < sqrt d' ↔ d < d'` and, for an integer threshold
  `t`, `sqrt d < t ↔ 0 ≤ t ∧ d < t ^ 2`; the bridging lemma
  `edist_lt_intCast_iff` below proves this equivalence.
-/

namespace Traffic

/-- A vehicle detection as produced by `VehicleDetector.detect`
(`backend/core/detector.py`): `bbox = [x1, y1, x2, y2]` and
`center = [(x1+x2)//2-ish int, ...]` are the only fields read by the tracking,
counting and color code; the remaining fields (`confidence`, `class_name`,
`width`, `height`, `area`) are carried along unchanged by the code under
verification and do not influence any claim, so they are not modelled. -/
structure Det where
  bbox : ℤ × ℤ × ℤ × ℤ
  center : ℤ × ℤ
deriving DecidableEq

instance : Inhabited Det := ⟨⟨(0, 0, 0, 0), (0, 0)⟩⟩

/-- A tracking-history entry: `{**detection, 'frame_number': frame_number}`
(speed_estimator.py line 107). -/
structure Entry where
  det : Det
  frame_number : ℤ
deriving DecidableEq

/-- `d.get(k)` on an insertion-ordered dict modelled as an association list. -/
def dictGet {α : Type} (d : List (ℤ × α)) (k : ℤ) : Option α :=
  (d.find? (fun p => decide (p.1 = k))).map Prod.snd

/-- `k in d` on an insertion-ordered dict. -/
def containsKey {α : Type} (d : List (ℤ × α)) (k : ℤ) : Bool :=
  d.any (fun p => decide (p.1 = k))

/-- The key list of an association-list dict, in insertion order. -/
def keysOf {α : Type} (d : List (ℤ × α)) : List ℤ :=
  d.map Prod.fst

/-- `d[k].append(e)` on a `defaultdict(list)`: append to the existing entry,
or insert a fresh singleton history at the end (Python dicts append newly
created keys in insertion order). -/
def dictAppendEntry (d : List (ℤ × List Entry)) (k : ℤ) (e : Entry) :
    List (ℤ × List Entry) :=
  if containsKey d k then
    d.map (fun p => if p.1 = k then (p.1, p.2 ++ [e]) else p)
  else
    d ++ [(k, [e])]

/-- `d[k] = v` on an insertion-ordered dict. -/
def dictInsert (d : List (ℤ × Det)) (k : ℤ) (v : Det) : List (ℤ × Det) :=
  if containsKey d k then
    d.map (fun p => if p.1 = k then (p.1, v) else p)
  else
    d ++ [(k, v)]

/-- Squared Euclidean distance between two integer centers,
`(a.x - b.x)^2 + (a.y - b.y)^2`. -/
def dist2 (a b : ℤ × ℤ) : ℤ :=
  (a.1 - b.1) ^ 2 + (a.2 - b.2) ^ 2

/-- Euclidean pixel distance between two centers, as computed by
`np.sqrt((x-x')**2 + (y-y')**2)` in the source. -/
noncomputable def edist (a b : ℤ × ℤ) : ℝ :=
  Real.sqrt ((dist2 a b : ℤ) : ℝ)

/-- State of `SpeedEstimator` (speed_estimator.py lines 13-37). -/
structure SpeedEstimator where
  pixels_per_meter : ℚ
  fps : ℤ
  roi_y : ℤ
  tracking_threshold : ℤ
  tracked_vehicles : List (ℤ × List Entry)
  vehicle_id_counter : ℤ
  completed_vehicles : List (ℤ × Det)

/-- `SpeedEstimator.__init__`: empty track store, id counter 0. -/
def SpeedEstimator.init (pixels_per_meter : ℚ)
    (fps roi_y tracking_threshold : ℤ) : SpeedEstimator :=
  ⟨pixels_per_meter, fps, roi_y, tracking_threshold, [], 0, []⟩

/-- `distance < min_distance` of the matching loop, on squared distances;
the accumulator `none` plays the role of `min_distance = float('inf')`. -/
def beatsB (acc : Option (ℤ × ℤ)) (d : ℤ) : Bool :=
  match acc with
  | none => true
  | some q => decide (d < q.2)

/-- The loop of `SpeedEstimator.match_detection` (lines 58-73): iterate over
the tracked vehicles in dict (insertion) order, carrying the best candidate
`(matched_id, min squared distance)`; `none` plays the role of
`(None, float('inf'))`.  The source condition
`distance < min_distance and distance < self.tracking_threshold` on Euclidean
distances is expressed on squared distances (see the header note and
`edist_lt_intCast_iff`). -/
def matchGo (threshold : ℤ) (center : ℤ × ℤ) :
    List (ℤ × List Entry) → Option (ℤ × ℤ) → Option (ℤ × ℤ)
  | [], acc => acc
  | p :: rest, acc =>
    match p.2.getLast? with
    | none => matchGo threshold center rest acc
    | some last_detection =>
      let distance2 := dist2 center last_detection.det.center
      if beatsB acc distance2 && decide (0 ≤ threshold) &&
          decide (distance2 < threshold ^ 2) then
        matchGo threshold center rest (some (p.1, distance2))
      else
        matchGo threshold center rest acc

/-- `SpeedEstimator.match_detection` (lines 39-75).  The
`previous_detections` parameter is declared by the source but never read by
the body; candidates always come from the global `tracked_vehicles` store. -/
def SpeedEstimator.match_detection (s : SpeedEstimator) (detection : Det)
    (previous_detections : List Det) : Option ℤ :=
  (matchGo s.tracking_threshold detection.center s.tracked_vehicles none).map Prod.fst

/-- Body of the per-detection loop of `update_tracking` (lines 96-113):
match against the (already partially updated) global store, allocate a fresh
id from the counter on a miss, append the entry to the history, and record
the id in `current_vehicles`.  The `matched_ids` set built by the source is
never read afterwards and is omitted. -/
def updateStep (frame_number : ℤ) (acc : SpeedEstimator × List (ℤ × Det))
    (detection : Det) : SpeedEstimator × List (ℤ × Det) :=
  match acc.1.match_detection detection [] with
  | some vehicle_id =>
    ({acc.1 with tracked_vehicles :=
        dictAppendEntry acc.1.tracked_vehicles vehicle_id ⟨detection, frame_number⟩},
     dictInsert acc.2 vehicle_id detection)
  | none =>
    ({acc.1 with
        vehicle_id_counter := acc.1.vehicle_id_counter + 1,
        tracked_vehicles :=
          dictAppendEntry acc.1.tracked_vehicles acc.1.vehicle_id_counter
            ⟨detection, frame_number⟩},
     dictInsert acc.2 acc.1.vehicle_id_counter detection)

/-- Stale-track removal of `update_tracking` (lines 115-124): collect the ids
whose last entry is more than 30 frames old and delete them.  Collect-then-
delete on a dict equals an order-preserving filter. Tracks with an empty
history are not collected for removal (`if len(history) > 0`). -/
def evictStale (s : SpeedEstimator) (frame_number : ℤ) : SpeedEstimator :=
  {s with tracked_vehicles :=
    s.tracked_vehicles.filter (fun p =>
      match p.2.getLast? with
      | none => true
      | some last => decide (frame_number - last.frame_number ≤ 30))}

/-- `SpeedEstimator.update_tracking` (lines 77-126): process the detections
in order, then evict stale tracks; returns the new state together with the
`current_vehicles` dict. -/
def SpeedEstimator.update_tracking (s : SpeedEstimator) (detections : List Det)
    (frame_number : ℤ) : SpeedEstimator × List (ℤ × Det) :=
  (evictStale (detections.foldl (updateStep frame_number) (s, [])).1 frame_number,
   (detections.foldl (updateStep frame_number) (s, [])).2)

open scoped Classical in
/-- Python integer `round(·)` of a real number: round half to even. -/
noncomputable def pyRound (x : ℝ) : ℤ :=
  if x - ⌊x⌋ < 1 / 2 then ⌊x⌋
  else if x - ⌊x⌋ > 1 / 2 then ⌊x⌋ + 1
  else if Even ⌊x⌋ then ⌊x⌋ else ⌊x⌋ + 1

/-- Python `round(x, 2)`: round half to even at two decimal places. -/
noncomputable def pyRound2 (x : ℝ) : ℝ :=
  (pyRound (x * 100) : ℝ) / 100

/-- `SpeedEstimator.estimate_speed` (lines 128-174).  The
`current_detection` parameter is declared by the source but never read.
`history[-10:]` is `drop (length - 10)` for a list of length ≥ 10; the
`| _, _ => none` branch is unreachable since the window is then nonempty.
`time_seconds = frame_diff / fps` is exact rational arithmetic (the source
assumes `fps ≠ 0`; with `fps = 0` Python would raise, and the model's
`x / 0 = 0` falls into the guarded `none` branch). -/
noncomputable def SpeedEstimator.estimate_speed (s : SpeedEstimator)
    (vehicle_id : ℤ) (current_detection : Det) : Option ℝ :=
  let history := (dictGet s.tracked_vehicles vehicle_id).getD []
  if history.length < 10 then none
  else
    let recent_history := history.drop (history.length - 10)
    match recent_history.head?, recent_history.getLast? with
    | some first, some last =>
      let pixel_distance : ℝ := Real.sqrt ((dist2 last.det.center first.det.center : ℤ) : ℝ)
      let distance_meters : ℝ := pixel_distance / (s.pixels_per_meter : ℝ)
      let frame_diff : ℤ := last.frame_number - first.frame_number
      let time_seconds : ℚ := (frame_diff : ℚ) / (s.fps : ℚ)
      if time_seconds = 0 then none
      else some (pyRound2 (distance_meters / (time_seconds : ℝ) * 3.6))
    | _, _ => none

/-- `SpeedEstimator.get_direction` (lines 176-207): compare the first-ever
recorded center with the current detection's center. -/
def SpeedEstimator.get_direction (s : SpeedEstimator) (vehicle_id : ℤ)
    (current_detection : Det) : Option String :=
  let history := (dictGet s.tracked_vehicles vehicle_id).getD []
  if history.length < 2 then none
  else
    match history.head? with
    | none => none
    | some first =>
      let dx := current_detection.center.1 - first.det.center.1
      let dy := current_detection.center.2 - first.det.center.2
      if |dy| > |dx| then (if dy > 0 then some "down" else some "up")
      else (if dx > 0 then some "right" else some "left")

/-- `SpeedEstimator.is_in_roi` (lines 209-220). -/
def SpeedEstimator.is_in_roi (s : SpeedEstimator) (detection : Det) : Bool :=
  decide (detection.center.2 > s.roi_y)

/-- `SpeedEstimator.reset` (lines 222-226): clear the track store, the id
counter and the completed-vehicle dict; calibration parameters are kept. -/
def SpeedEstimator.reset (s : SpeedEstimator) : SpeedEstimator :=
  {s with tracked_vehicles := [], vehicle_id_counter := 0, completed_vehicles := []}

/-- State of `VideoProcessor` (video_processor.py lines 18-50).  The external
collaborators (detector, color detector, plate detector/OCR, database) are
opaque: `process_frame` below takes the detector's output directly, and the
only state the orchestrator itself mutates is modelled here.
`frame_detections` is written by `__init__`/`reset` and never read. -/
structure VideoProcessor where
  speed_estimator : SpeedEstimator
  save_to_db : Bool
  total_vehicle_count : ℤ
  frame_detections : List Det
  counted_vehicles : Finset ℤ

/-- Body of the per-detection loop of `process_frame` (lines 79-139),
restricted to the state it mutates: recover the vehicle id by scanning
`tracked_vehicles.items()` for a value equal to the detection (lines 81-88),
then apply the counting decision
`save_to_db and in_roi and speed is not None and not self._is_vehicle_saved(id)`
(lines 135-139), where `_is_vehicle_saved` is membership in the
`counted_vehicles` set (lines 283-293). -/
noncomputable def countStep (tracked_vehicles : List (ℤ × Det))
    (acc : VideoProcessor) (detection : Det) : VideoProcessor :=
  match (tracked_vehicles.find? (fun p => decide (p.2 = detection))).map Prod.fst with
  | none => acc
  | some vehicle_id =>
    if acc.save_to_db && acc.speed_estimator.is_in_roi detection &&
        (acc.speed_estimator.estimate_speed vehicle_id detection).isSome &&
        !(decide (vehicle_id ∈ acc.counted_vehicles)) then
      {acc with
        counted_vehicles := insert vehicle_id acc.counted_vehicles,
        total_vehicle_count := acc.total_vehicle_count + 1}
    else acc

/-- `VideoProcessor.process_frame` (lines 52-152), restricted to the state it
mutates.  Detection (`self.detector.detect(frame)`) is an external model call,
so the detections arrive as an argument.  Per-detection enrichment values that
neither read nor write orchestrator state (color, size, plate, annotations,
timestamps) are omitted. -/
noncomputable def VideoProcessor.process_frame (vp : VideoProcessor)
    (detections : List Det) (frame_number : ℤ) : VideoProcessor :=
  detections.foldl
    (countStep (vp.speed_estimator.update_tracking detections frame_number).2)
    {vp with speed_estimator :=
      (vp.speed_estimator.update_tracking detections frame_number).1}

/-- `VideoProcessor.reset` (lines 295-300). -/
def VideoProcessor.reset (vp : VideoProcessor) : VideoProcessor :=
  {vp with
    total_vehicle_count := 0,
    frame_detections := [],
    counted_vehicles := ∅,
    speed_estimator := vp.speed_estimator.reset}

/-- A session: a sequence of `process_frame` calls (detections plus frame
number per frame), with no intervening reset. -/
noncomputable def runVP (vp : VideoProcessor) (frames : List (List Det × ℤ)) :
    VideoProcessor :=
  frames.foldl (fun acc f => acc.process_frame f.1 f.2) vp

/-- A session of `update_tracking` calls on the speed estimator alone. -/
def runSE (s : SpeedEstimator) (frames : List (List Det × ℤ)) : SpeedEstimator :=
  frames.foldl (fun acc f => (acc.update_tracking f.1 f.2).1) s

open scoped Classical in
/-- Specification harness for the at-most-once-counting claim: the number of
frames of a session at which the given track id moves from uncounted to
counted (each such frame is exactly one increment of the running total on
behalf of that id). -/
noncomputable def edgeCount (vp : VideoProcessor) (id : ℤ) :
    List (List Det × ℤ) → ℕ
  | [] => 0
  | f :: fs =>
    (if id ∉ vp.counted_vehicles ∧
        id ∈ (vp.process_frame f.1 f.2).counted_vehicles then 1 else 0) +
      edgeCount (vp.process_frame f.1 f.2) id fs

/-- An HSV pixel (hue, saturation, value), each channel a `uint8` value. -/
abbrev HSV := ℕ × ℕ × ℕ

/-- An image as a list of pixel rows (numpy arrays are rectangular; claims
about color detection carry rectangularity where the shape matters). -/
abbrev Img := List (List HSV)

/-- Clamp a Python slice index to `[0, n]`: negative indices count from the
end, out-of-range indices clamp. -/
def pyIdx (n : ℕ) (i : ℤ) : ℕ :=
  if i < 0 then (max ((n : ℤ) + i) 0).toNat else min i.toNat n

/-- Python step-1 slice `l[a:b]` with arbitrary integer bounds. -/
def pySliceInt {α : Type} (a b : ℤ) (l : List α) : List α :=
  (l.take (pyIdx l.length b)).drop (pyIdx l.length a)

/-- Python step-1 slice `l[a:b]` with bounds already clamped to `[0, n]`
(used for the center sub-crop, whose bounds the source clamps explicitly
with `max(0, ·)` / `min(h, ·)`; `List.take` and truncated subtraction
realize the same clamping). -/
def pySliceNat {α : Type} (a b : ℕ) (l : List α) : List α :=
  (l.take b).drop a

/-- `numpy` `.size` (up to the constant channel factor 3): zero exactly when
the array has no pixels. -/
def imgSize (img : Img) : ℕ :=
  (img.map List.length).sum

/-- `ColorDetector.COLOR_RANGES` (color_detector.py lines 14-23), in dict
insertion order. -/
def COLOR_RANGES : List (String × List HSV) :=
  [("red", [(0, 100, 100), (10, 255, 255), (160, 100, 100), (180, 255, 255)]),
   ("blue", [(100, 100, 100), (130, 255, 255)]),
   ("green", [(40, 50, 50), (80, 255, 255)]),
   ("yellow", [(20, 100, 100), (30, 255, 255)]),
   ("white", [(0, 0, 200), (180, 30, 255)]),
   ("black", [(0, 0, 0), (180, 255, 50)]),
   ("gray", [(0, 0, 50), (180, 50, 200)]),
   ("orange", [(10, 100, 100), (20, 255, 255)])]

/-- `cv2.inRange` membership of one pixel: componentwise
`lower ≤ pixel ≤ upper` (inclusive). -/
def inRangeHSV (lo hi p : HSV) : Bool :=
  decide (lo.1 ≤ p.1) && decide (p.1 ≤ hi.1) &&
  decide (lo.2.1 ≤ p.2.1) && decide (p.2.1 ≤ hi.2.1) &&
  decide (lo.2.2 ≤ p.2.2) && decide (p.2.2 ≤ hi.2.2)

/-- Whether a pixel is set in the mask of one color (lines 72-84):
colors listed with 4 bounds (red) take the union of two `inRange` masks,
otherwise a single `inRange` mask. -/
def pixelMatches (ranges : List HSV) (p : HSV) : Bool :=
  if ranges.length = 4 then
    inRangeHSV (ranges.getD 0 (0, 0, 0)) (ranges.getD 1 (0, 0, 0)) p ||
    inRangeHSV (ranges.getD 2 (0, 0, 0)) (ranges.getD 3 (0, 0, 0)) p
  else
    inRangeHSV (ranges.getD 0 (0, 0, 0)) (ranges.getD 1 (0, 0, 0)) p

/-- `np.sum(mask > 0)` (line 87): the number of pixels of the region matching
the color's range(s). -/
def maskCount (ranges : List HSV) (region : Img) : ℕ :=
  (region.map (fun row => row.countP (pixelMatches ranges))).sum

/-- `color_scores` (lines 69-88), in `COLOR_RANGES` insertion order. -/
def colorScores (region : Img) : List (String × ℕ) :=
  COLOR_RANGES.map (fun c => (c.1, maskCount c.2 region))

/-- `max(color_scores, key=color_scores.get)` (line 94): the first key
attaining the maximal score, in dict insertion order. -/
def argmaxFirst : List (String × ℕ) → String
  | [] => "unknown"
  | q :: rest => (rest.foldl (fun best p => if p.2 > best.2 then p else best) q).1

/-- `vehicle_region = frame[y1:y2, x1:x2]` (line 47) with
`x1, y1, x2, y2 = detection['bbox']`, in exact Python slice semantics. -/
def cropRegion (frame : Img) (detection : Det) : Img :=
  (pySliceInt detection.bbox.2.1 detection.bbox.2.2.2 frame).map
    (pySliceInt detection.bbox.1 detection.bbox.2.2.1)

/-- `center_region` (lines 55-63): with `h, w = hsv.shape[:2]` (row count and
leading-row width), `center_h, center_w = h // 2, w // 2` and
`margin_h, margin_w = h // 4, w // 4`, the sub-crop
`hsv[max(0, center_h - margin_h):min(h, center_h + margin_h),
     max(0, center_w - margin_w):min(w, center_w + margin_w)]`;
`List.take` and truncated `ℕ` subtraction realize the explicit
`max(0, ·)` / `min(·, h)` clamping. -/
def centerRegion (region : Img) : Img :=
  (pySliceNat (region.length / 2 - region.length / 4)
      (region.length / 2 + region.length / 4) region).map
    (pySliceNat ((region.headD []).length / 2 - (region.headD []).length / 4)
      ((region.headD []).length / 2 + (region.headD []).length / 4))

/-- `ColorDetector.detect_color` (lines 29-95).  `cv2.cvtColor` is an opaque
external pixelwise conversion and all constants of this function live in HSV
space, so the model works directly on an HSV frame (a pixelwise conversion
commutes with cropping). -/
def detect_color (frame : Img) (detection : Det) : String :=
  if imgSize (cropRegion frame detection) = 0 then "unknown"
  else if imgSize (centerRegion (cropRegion frame detection)) = 0 then "unknown"
  else if (colorScores (centerRegion (cropRegion frame detection))).isEmpty ||
      decide (((colorScores (centerRegion (cropRegion frame detection))).map
        Prod.snd).foldr max 0 = 0) then "unknown"
  else argmaxFirst (colorScores (centerRegion (cropRegion frame detection)))

/-! ## Basic lemmas -/

lemma dist2_nonneg (a b : ℤ × ℤ) : 0 ≤ dist2 a b :=
  add_nonneg (sq_nonneg _) (sq_nonneg _)

/-- Bridging lemma justifying the squared-distance comparison against the
integer threshold: `sqrt d < t ↔ 0 ≤ t ∧ d < t ^ 2`. -/
lemma edist_lt_intCast_iff (a b : ℤ × ℤ) (t : ℤ) :
    edist a b < (t : ℝ) ↔ 0 ≤ t ∧ dist2 a b < t ^ 2 := by
  unfold edist
  rcases lt_or_le 0 t with ht | ht
  · rw [Real.sqrt_lt' (by exact_mod_cast ht)]
    constructor
    · intro h
      exact ⟨le_of_lt ht, by exact_mod_cast h⟩
    · intro h
      exact_mod_cast h.2
  · constructor
    · intro h
      exact absurd h (not_lt.mpr (le_trans (by exact_mod_cast ht) (Real.sqrt_nonneg _)))
    · rintro ⟨h0, hlt⟩
      have ht0 : t = 0 := le_antisymm ht h0
      subst ht0
      simp at hlt
      exact absurd hlt (not_lt.mpr (dist2_nonneg a b))

/-- Bridging lemma for comparing two Euclidean distances via squares. -/
lemma edist_le_edist_iff (c a b : ℤ × ℤ) :
    edist c a ≤ edist c b ↔ dist2 c a ≤ dist2 c b := by
  unfold edist
  rw [Real.sqrt_le_sqrt_iff (by exact_mod_cast dist2_nonneg c b)]
  exact_mod_cast Iff.rfl

lemma containsKey_eq_true_iff {α : Type} (d : List (ℤ × α)) (k : ℤ) :
    containsKey d k = true ↔ k ∈ keysOf d := by
  simp only [containsKey, keysOf, List.any_eq_true, decide_eq_true_eq, List.mem_map]

lemma keysOf_dictAppendEntry_of_mem (d : List (ℤ × List Entry)) (k : ℤ) (e : Entry)
    (h : k ∈ keysOf d) : keysOf (dictAppendEntry d k e) = keysOf d := by
  unfold dictAppendEntry
  rw [if_pos ((containsKey_eq_true_iff d k).mpr h)]
  unfold keysOf
  rw [List.map_map]
  apply List.map_congr_left
  intro p _
  by_cases hp : p.1 = k <;> simp [hp]

lemma keysOf_dictAppendEntry_of_not_mem (d : List (ℤ × List Entry)) (k : ℤ) (e : Entry)
    (h : k ∉ keysOf d) : keysOf (dictAppendEntry d k e) = keysOf d ++ [k] := by
  unfold dictAppendEntry
  rw [if_neg (fun hc => h ((containsKey_eq_true_iff d k).mp hc))]
  simp [keysOf]

/-! ## Characterization of the matching loop -/

/-- The most recent recorded center of a history, if any. -/
def lastCenter? (h : List Entry) : Option (ℤ × ℤ) :=
  h.getLast?.map (fun e => e.det.center)

/-- The running accumulator of the matching loop is beaten by squared
distance `d` (`none` plays `min_distance = inf`). -/
def Beats (acc : Option (ℤ × ℤ)) (d : ℤ) : Prop :=
  ∀ q, acc = some q → d < q.2

/-- The source's acceptance condition
`distance < min_distance and distance < self.tracking_threshold` for one
candidate at squared distance `d`, against accumulator `acc`. -/
def Accepts (t : ℤ) (acc : Option (ℤ × ℤ)) (d : ℤ) : Prop :=
  Beats acc d ∧ 0 ≤ t ∧ d < t ^ 2

lemma matchCond_true {t d : ℤ} {acc : Option (ℤ × ℤ)} (h : Accepts t acc d) :
    (beatsB acc d && decide (0 ≤ t) && decide (d < t ^ 2)) = true := by
  obtain ⟨hb, h0, hlt⟩ := h
  rcases acc with _ | q
  · simp [beatsB, h0, hlt]
  · simp [beatsB, h0, hlt, hb q rfl]

lemma matchCond_false {t d : ℤ} {acc : Option (ℤ × ℤ)} (h : ¬ Accepts t acc d) :
    (beatsB acc d && decide (0 ≤ t) && decide (d < t ^ 2)) = false := by
  rw [Accepts] at h
  rcases not_and_or.mp h with hnb | h23
  · rw [Beats] at hnb
    push_neg at hnb
    obtain ⟨q, hq, hge⟩ := hnb
    subst hq
    simp only [beatsB, Bool.and_eq_false_iff, decide_eq_false_iff_not]
    exact Or.inl (Or.inl (not_lt.mpr hge))
  · rcases not_and_or.mp h23 with h0 | hd2
    · simp only [Bool.and_eq_false_iff, decide_eq_false_iff_not]
      exact Or.inl (Or.inr h0)
    · simp only [Bool.and_eq_false_iff, decide_eq_false_iff_not]
      exact Or.inr hd2

/-- Full characterization of the matching loop `matchGo`: either no element of
the remaining list is accepted against the accumulator and the accumulator is
returned unchanged, or the result is an element of the list, within the
threshold, strictly better than the accumulator, and of minimal squared
distance over the whole list. -/
lemma matchGo_spec (t : ℤ) (c : ℤ × ℤ) (l : List (ℤ × List Entry)) :
    ∀ acc : Option (ℤ × ℤ),
      (matchGo t c l acc = acc ∧
        ∀ p ∈ l, ∀ lc, lastCenter? p.2 = some lc → ¬ Accepts t acc (dist2 c lc)) ∨
      (∃ i m, matchGo t c l acc = some (i, m) ∧
        (∃ p ∈ l, p.1 = i ∧ ∃ lc, lastCenter? p.2 = some lc ∧ dist2 c lc = m) ∧
        0 ≤ t ∧ m < t ^ 2 ∧
        (∀ q, acc = some q → m < q.2) ∧
        (∀ p ∈ l, ∀ lc, lastCenter? p.2 = some lc → m ≤ dist2 c lc)) := by
  induction l with
  | nil =>
    intro acc
    exact Or.inl ⟨rfl, by simp⟩
  | cons p rest ih =>
    intro acc
    rcases hl : p.2.getLast? with _ | e
    · have heq : matchGo t c (p :: rest) acc = matchGo t c rest acc := by
        simp only [matchGo, hl]
      have hnolc : ∀ lc, lastCenter? p.2 ≠ some lc := by
        intro lc
        simp [lastCenter?, hl]
      rcases ih acc with ⟨h1, h2⟩ | ⟨i, m, hres, hmem, h0, hlt2, hacc, hmin⟩
      · refine Or.inl ⟨heq.trans h1, ?_⟩
        intro q hq lc hlc
        rcases List.mem_cons.mp hq with rfl | hq'
        · exact absurd hlc (hnolc lc)
        · exact h2 q hq' lc hlc
      · refine Or.inr ⟨i, m, heq.trans hres, ?_, h0, hlt2, hacc, ?_⟩
        · obtain ⟨p', hp', hrest⟩ := hmem
          exact ⟨p', List.mem_cons_of_mem _ hp', hrest⟩
        · intro q hq lc hlc
          rcases List.mem_cons.mp hq with rfl | hq'
          · exact absurd hlc (hnolc lc)
          · exact hmin q hq' lc hlc
    · have hlc : lastCenter? p.2 = some e.det.center := by
        simp [lastCenter?, hl]
      by_cases hB : Accepts t acc (dist2 c e.det.center)
      · have heq : matchGo t c (p :: rest) acc
            = matchGo t c rest (some (p.1, dist2 c e.det.center)) := by
          simp only [matchGo, hl]
          rw [matchCond_true hB]
          simp
        rcases ih (some (p.1, dist2 c e.det.center)) with
          ⟨h1, h2⟩ | ⟨i, m, hres, hmem, h0, hlt2, hacc, hmin⟩
        · refine Or.inr ⟨p.1, dist2 c e.det.center, heq.trans h1,
            ⟨p, List.mem_cons_self p rest, rfl, e.det.center, hlc, rfl⟩,
            hB.2.1, hB.2.2, fun q hq => hB.1 q hq, ?_⟩
          intro q hq lc hlc'
          rcases List.mem_cons.mp hq with rfl | hq'
          · rw [hlc] at hlc'
            cases hlc'
            exact le_refl _
          · have hfail := h2 q hq' lc hlc'
            by_cases hdd : dist2 c lc < dist2 c e.det.center
            · exfalso
              refine hfail ⟨?_, hB.2.1, lt_trans hdd hB.2.2⟩
              intro q' hq'
              cases hq'
              exact hdd
            · exact not_lt.mp hdd
        · refine Or.inr ⟨i, m, heq.trans hres, ?_, h0, hlt2, ?_, ?_⟩
          · obtain ⟨p', hp', hrest⟩ := hmem
            exact ⟨p', List.mem_cons_of_mem _ hp', hrest⟩
          · intro q hq
            exact lt_trans (hacc (p.1, dist2 c e.det.center) rfl) (hB.1 q hq)
          · intro q hq lc hlc'
            rcases List.mem_cons.mp hq with rfl | hq'
            · rw [hlc] at hlc'
              cases hlc'
              exact le_of_lt (hacc _ rfl)
            · exact hmin q hq' lc hlc'
      · have heq : matchGo t c (p :: rest) acc = matchGo t c rest acc := by
          simp only [matchGo, hl]
          rw [matchCond_false hB]
          simp
        rcases ih acc with ⟨h1, h2⟩ | ⟨i, m, hres, hmem, h0, hlt2, hacc, hmin⟩
        · refine Or.inl ⟨heq.trans h1, ?_⟩
          intro q hq lc hlc'
          rcases List.mem_cons.mp hq with rfl | hq'
          · rw [hlc] at hlc'
            cases hlc'
            exact hB
          · exact h2 q hq' lc hlc'
        · refine Or.inr ⟨i, m, heq.trans hres, ?_, h0, hlt2, hacc, ?_⟩
          · obtain ⟨p', hp', hrest⟩ := hmem
            exact ⟨p', List.mem_cons_of_mem _ hp', hrest⟩
          · intro q hq lc hlc'
            rcases List.mem_cons.mp hq with rfl | hq'
            · rw [hlc] at hlc'
              cases hlc'
              rw [Accepts] at hB
              rcases not_and_or.mp hB with hnb | h23
              · rw [Beats] at hnb
                push_neg at hnb
                obtain ⟨q', hq', hge⟩ := hnb
                exact le_trans (le_of_lt (hacc q' hq')) hge
              · rcases not_and_or.mp h23 with h0' | hd2
                · exact absurd h0 h0'
                · exact le_trans (le_of_lt hlt2) (not_lt.mp hd2)
            · exact hmin q hq' lc hlc'

/-- `match_detection` misses exactly when no tracked vehicle's most recent
center lies strictly within the tracking threshold. -/
lemma match_detection_none_iff (s : SpeedEstimator) (d : Det) (prev : List Det) :
    s.match_detection d prev = none ↔
      ∀ p ∈ s.tracked_vehicles, ∀ lc, lastCenter? p.2 = some lc →
        ¬ (0 ≤ s.tracking_threshold ∧
           dist2 d.center lc < s.tracking_threshold ^ 2) := by
  unfold SpeedEstimator.match_detection
  rcases matchGo_spec s.tracking_threshold d.center s.tracked_vehicles none with
    ⟨h1, h2⟩ | ⟨i, m, hres, hmem, h0, hlt2, _, _⟩
  · rw [h1]
    simp only [Option.map_none', true_iff]
    intro p hp lc hlc hc
    exact h2 p hp lc hlc ⟨fun q hq => Option.noConfusion hq, hc.1, hc.2⟩
  · rw [hres]
    simp only [Option.map_some']
    constructor
    · intro h
      exact Option.noConfusion h
    · intro hall
      exfalso
      obtain ⟨p, hp, _, lc, hlc, hm⟩ := hmem
      exact hall p hp lc hlc ⟨h0, by rw [hm]; exact hlt2⟩

/-- A successful `match_detection` returns a stored track id whose most recent
center is strictly within the threshold and of minimal squared distance over
all tracked vehicles. -/
lemma match_detection_some (s : SpeedEstimator) (d : Det) (prev : List Det)
    (i : ℤ) (h : s.match_detection d prev = some i) :
    ∃ m, 0 ≤ s.tracking_threshold ∧ m < s.tracking_threshold ^ 2 ∧
      (∃ p ∈ s.tracked_vehicles, p.1 = i ∧
        ∃ lc, lastCenter? p.2 = some lc ∧ dist2 d.center lc = m) ∧
      ∀ p ∈ s.tracked_vehicles, ∀ lc, lastCenter? p.2 = some lc →
        m ≤ dist2 d.center lc := by
  unfold SpeedEstimator.match_detection at h
  rcases matchGo_spec s.tracking_threshold d.center s.tracked_vehicles none with
    ⟨h1, _⟩ | ⟨i', m, hres, hmem, h0, hlt2, _, hmin⟩
  · rw [h1] at h
    cases h
  · rw [hres] at h
    simp only [Option.map_some', Option.some.injEq] at h
    subst h
    exact ⟨m, h0, hlt2, hmem, hmin⟩

lemma match_detection_some_mem (s : SpeedEstimator) (d : Det) (prev : List Det)
    (i : ℤ) (h : s.match_detection d prev = some i) :
    i ∈ keysOf s.tracked_vehicles := by
  obtain ⟨m, _, _, ⟨p, hp, hpi, _⟩, _⟩ := match_detection_some s d prev i h
  exact hpi ▸ List.mem_map_of_mem Prod.fst hp

/-! ## Update-step and eviction lemmas -/

/-- The session invariant of the track store: active ids are pairwise distinct
and below the id counter. -/
def SEInv (s : SpeedEstimator) : Prop :=
  (keysOf s.tracked_vehicles).Nodup ∧
    ∀ k ∈ keysOf s.tracked_vehicles, k < s.vehicle_id_counter

lemma updateStep_counter_le (N : ℤ) (acc : SpeedEstimator × List (ℤ × Det))
    (d : Det) : acc.1.vehicle_id_counter ≤ (updateStep N acc d).1.vehicle_id_counter := by
  unfold updateStep
  cases h : acc.1.match_detection d []
  · simp only [h]
    exact le_of_lt (lt_add_one _)
  · simp only [h]
    exact le_refl _

lemma updateStep_keys (N : ℤ) (acc : SpeedEstimator × List (ℤ × Det)) (d : Det) :
    ∀ k ∈ keysOf (updateStep N acc d).1.tracked_vehicles,
      k ∈ keysOf acc.1.tracked_vehicles ∨ k = acc.1.vehicle_id_counter := by
  intro k hk
  unfold updateStep at hk
  cases h : acc.1.match_detection d []
  · rw [h] at hk
    simp only at hk
    by_cases hc : acc.1.vehicle_id_counter ∈ keysOf acc.1.tracked_vehicles
    · rw [keysOf_dictAppendEntry_of_mem _ _ _ hc] at hk
      exact Or.inl hk
    · rw [keysOf_dictAppendEntry_of_not_mem _ _ _ hc] at hk
      rcases List.mem_append.mp hk with hk' | hk'
      · exact Or.inl hk'
      · exact Or.inr (List.mem_singleton.mp hk')
  · rw [h] at hk
    simp only at hk
    rw [keysOf_dictAppendEntry_of_mem _ _ _ (match_detection_some_mem _ _ _ _ h)] at hk
    exact Or.inl hk

lemma updateStep_inv (N : ℤ) (acc : SpeedEstimator × List (ℤ × Det)) (d : Det)
    (h : SEInv acc.1) : SEInv (updateStep N acc d).1 := by
  obtain ⟨hnd, hlt⟩ := h
  unfold updateStep
  cases hm : acc.1.match_detection d []
  · simp only [hm]
    have hc : acc.1.vehicle_id_counter ∉ keysOf acc.1.tracked_vehicles :=
      fun hmem => lt_irrefl _ (hlt _ hmem)
    constructor
    · rw [keysOf_dictAppendEntry_of_not_mem _ _ _ hc]
      rw [List.nodup_append]
      exact ⟨hnd, List.nodup_singleton _, fun a ha hb => hc ((List.mem_singleton.mp hb) ▸ ha)⟩
    · intro k hk
      rw [keysOf_dictAppendEntry_of_not_mem _ _ _ hc] at hk
      rcases List.mem_append.mp hk with hk' | hk'
      · exact lt_trans (hlt k hk') (lt_add_one _)
      · rw [List.mem_singleton.mp hk']
        exact lt_add_one _
  · simp only [hm]
    rw [SEInv]
    rw [keysOf_dictAppendEntry_of_mem _ _ _ (match_detection_some_mem _ _ _ _ hm)]
    exact ⟨hnd, hlt⟩

/-- A pair survives eviction exactly when its last entry (if any) is at most
30 frames behind the current frame. -/
lemma evictStale_tracked_mem (s : SpeedEstimator) (N : ℤ) (p : ℤ × List Entry) :
    p ∈ (evictStale s N).tracked_vehicles ↔
      p ∈ s.tracked_vehicles ∧
        ∀ e, p.2.getLast? = some e → N - e.frame_number ≤ 30 := by
  simp only [evictStale, List.mem_filter]
  constructor
  · rintro ⟨hp, hcond⟩
    refine ⟨hp, ?_⟩
    intro e he
    rw [he] at hcond
    simpa using hcond
  · rintro ⟨hp, hcond⟩
    refine ⟨hp, ?_⟩
    cases he : p.2.getLast? with
    | none => simp
    | some e =>
      simpa using hcond e he

lemma evictStale_keys_sublist (s : SpeedEstimator) (N : ℤ) :
    (keysOf (evictStale s N).tracked_vehicles).Sublist (keysOf s.tracked_vehicles) :=
  (List.filter_sublist _).map Prod.fst

lemma evictStale_counter (s : SpeedEstimator) (N : ℤ) :
    (evictStale s N).vehicle_id_counter = s.vehicle_id_counter := rfl

lemma evictStale_inv (s : SpeedEstimator) (N : ℤ) (h : SEInv s) :
    SEInv (evictStale s N) := by
  obtain ⟨hnd, hlt⟩ := h
  exact ⟨hnd.sublist (evictStale_keys_sublist s N),
    fun k hk => hlt k ((evictStale_keys_sublist s N).mem hk)⟩

lemma foldl_updateStep_counter_le (N : ℤ) (ds : List Det) :
    ∀ acc : SpeedEstimator × List (ℤ × Det),
      acc.1.vehicle_id_counter ≤ (ds.foldl (updateStep N) acc).1.vehicle_id_counter := by
  induction ds with
  | nil => intro acc; exact le_refl _
  | cons d rest ih =>
    intro acc
    exact le_trans (updateStep_counter_le N acc d) (ih (updateStep N acc d))

lemma foldl_updateStep_inv (N : ℤ) (ds : List Det) :
    ∀ acc : SpeedEstimator × List (ℤ × Det), SEInv acc.1 →
      SEInv ((ds.foldl (updateStep N) acc)).1 := by
  induction ds with
  | nil => intro acc h; exact h
  | cons d rest ih =>
    intro acc h
    exact ih (updateStep N acc d) (updateStep_inv N acc d h)

lemma foldl_updateStep_keys (N : ℤ) (ds : List Det) :
    ∀ acc : SpeedEstimator × List (ℤ × Det),
      ∀ k ∈ keysOf ((ds.foldl (updateStep N) acc)).1.tracked_vehicles,
        k ∈ keysOf acc.1.tracked_vehicles ∨ acc.1.vehicle_id_counter ≤ k := by
  induction ds with
  | nil => intro acc k hk; exact Or.inl hk
  | cons d rest ih =>
    intro acc k hk
    rcases ih (updateStep N acc d) k hk with hk' | hk'
    · rcases updateStep_keys N acc d k hk' with h | h
      · exact Or.inl h
      · exact Or.inr (le_of_eq h.symm)
    · exact Or.inr (le_trans (updateStep_counter_le N acc d) hk')

lemma update_tracking_inv (s : SpeedEstimator) (ds : List Det) (N : ℤ)
    (h : SEInv s) : SEInv (s.update_tracking ds N).1 := by
  unfold SpeedEstimator.update_tracking
  exact evictStale_inv _ _ (foldl_updateStep_inv N ds (s, []) h)

lemma update_tracking_counter_le (s : SpeedEstimator) (ds : List Det) (N : ℤ) :
    s.vehicle_id_counter ≤ (s.update_tracking ds N).1.vehicle_id_counter := by
  unfold SpeedEstimator.update_tracking
  rw [evictStale_counter]
  exact foldl_updateStep_counter_le N ds (s, [])

lemma update_tracking_keys (s : SpeedEstimator) (ds : List Det) (N : ℤ) :
    ∀ k ∈ keysOf (s.update_tracking ds N).1.tracked_vehicles,
      k ∈ keysOf s.tracked_vehicles ∨ s.vehicle_id_counter ≤ k := by
  intro k hk
  unfold SpeedEstimator.update_tracking at hk
  exact foldl_updateStep_keys N ds (s, []) k ((evictStale_keys_sublist _ _).mem hk)

lemma update_tracking_not_mem (s : SpeedEstimator) (ds : List Det) (N : ℤ)
    (k : ℤ) (h1 : k ∉ keysOf s.tracked_vehicles) (h2 : k < s.vehicle_id_counter) :
    k ∉ keysOf (s.update_tracking ds N).1.tracked_vehicles := by
  intro hk
  rcases update_tracking_keys s ds N k hk with h | h
  · exact h1 h
  · exact absurd h2 (not_lt.mpr h)

lemma runSE_append (s : SpeedEstimator) (a b : List (List Det × ℤ)) :
    runSE s (a ++ b) = runSE (runSE s a) b := by
  unfold runSE
  exact List.foldl_append _ _ a b

lemma runSE_counter_le (fs : List (List Det × ℤ)) :
    ∀ s : SpeedEstimator, s.vehicle_id_counter ≤ (runSE s fs).vehicle_id_counter := by
  induction fs with
  | nil => intro s; exact le_refl _
  | cons f rest ih =>
    intro s
    exact le_trans (update_tracking_counter_le s f.1 f.2) (ih _)

lemma runSE_inv (fs : List (List Det × ℤ)) :
    ∀ s : SpeedEstimator, SEInv s → SEInv (runSE s fs) := by
  induction fs with
  | nil => intro s h; exact h
  | cons f rest ih =>
    intro s h
    exact ih _ (update_tracking_inv s f.1 f.2 h)

lemma runSE_not_mem (fs : List (List Det × ℤ)) :
    ∀ s : SpeedEstimator, ∀ k, k ∉ keysOf s.tracked_vehicles →
      k < s.vehicle_id_counter → k ∉ keysOf (runSE s fs).tracked_vehicles := by
  induction fs with
  | nil => intro s k h1 _; exact h1
  | cons f rest ih =>
    intro s k h1 h2
    exact ih _ k (update_tracking_not_mem s f.1 f.2 k h1 h2)
      (lt_of_lt_of_le h2 (update_tracking_counter_le s f.1 f.2))

/-! ## Counting lemmas -/

lemma countStep_counted_subset (tv : List (ℤ × Det)) (acc : VideoProcessor)
    (d : Det) : acc.counted_vehicles ⊆ (countStep tv acc d).counted_vehicles := by
  unfold countStep
  cases (tv.find? (fun p => decide (p.2 = d))).map Prod.fst
  · exact subset_refl _
  · simp only
    split
    · exact Finset.subset_insert _ _
    · exact subset_refl _

lemma countStep_total (tv : List (ℤ × Det)) (acc : VideoProcessor) (d : Det) :
    (countStep tv acc d).total_vehicle_count + (acc.counted_vehicles.card : ℤ) =
      acc.total_vehicle_count + ((countStep tv acc d).counted_vehicles.card : ℤ) := by
  unfold countStep
  cases (tv.find? (fun p => decide (p.2 = d))).map Prod.fst
  · ring
  · rename_i vid
    simp only
    split
    · rename_i hcond
      have hnot : vid ∉ acc.counted_vehicles := by
        simp only [Bool.and_eq_true, Bool.not_eq_true', decide_eq_false_iff_not] at hcond
        exact hcond.2
      have : (insert vid acc.counted_vehicles).card = acc.counted_vehicles.card + 1 :=
        Finset.card_insert_of_not_mem hnot
      simp only [this]
      push_cast
      ring
    · ring

lemma countStep_fields (tv : List (ℤ × Det)) (acc : VideoProcessor) (d : Det) :
    (countStep tv acc d).speed_estimator = acc.speed_estimator ∧
      (countStep tv acc d).save_to_db = acc.save_to_db := by
  unfold countStep
  cases (tv.find? (fun p => decide (p.2 = d))).map Prod.fst
  · exact ⟨rfl, rfl⟩
  · simp only
    split
    · exact ⟨rfl, rfl⟩
    · exact ⟨rfl, rfl⟩

lemma foldl_countStep_counted_subset (tv : List (ℤ × Det)) (ds : List Det) :
    ∀ acc : VideoProcessor,
      acc.counted_vehicles ⊆ (ds.foldl (countStep tv) acc).counted_vehicles := by
  induction ds with
  | nil => intro acc; exact subset_refl _
  | cons d rest ih =>
    intro acc
    exact subset_trans (countStep_counted_subset tv acc d) (ih (countStep tv acc d))

lemma foldl_countStep_total (tv : List (ℤ × Det)) (ds : List Det) :
    ∀ acc : VideoProcessor,
      (ds.foldl (countStep tv) acc).total_vehicle_count +
          (acc.counted_vehicles.card : ℤ) =
        acc.total_vehicle_count +
          ((ds.foldl (countStep tv) acc).counted_vehicles.card : ℤ) := by
  induction ds with
  | nil => intro acc; simp
  | cons d rest ih =>
    intro acc
    have h1 := countStep_total tv acc d
    have h2 := ih (countStep tv acc d)
    simp only [List.foldl_cons]
    omega

lemma process_frame_counted_subset (vp : VideoProcessor) (ds : List Det) (n : ℤ) :
    vp.counted_vehicles ⊆ (vp.process_frame ds n).counted_vehicles := by
  unfold VideoProcessor.process_frame
  have h := foldl_countStep_counted_subset
    (vp.speed_estimator.update_tracking ds n).2 ds
    {vp with speed_estimator := (vp.speed_estimator.update_tracking ds n).1}
  simpa using h

lemma process_frame_total (vp : VideoProcessor) (ds : List Det) (n : ℤ) :
    (vp.process_frame ds n).total_vehicle_count + (vp.counted_vehicles.card : ℤ) =
      vp.total_vehicle_count + ((vp.process_frame ds n).counted_vehicles.card : ℤ) := by
  unfold VideoProcessor.process_frame
  have h := foldl_countStep_total
    (vp.speed_estimator.update_tracking ds n).2 ds
    {vp with speed_estimator := (vp.speed_estimator.update_tracking ds n).1}
  simpa using h

lemma edgeCount_zero_of_mem (id : ℤ) (fs : List (List Det × ℤ)) :
    ∀ vp : VideoProcessor, id ∈ vp.counted_vehicles → edgeCount vp id fs = 0 := by
  induction fs with
  | nil => intro vp _; rfl
  | cons f rest ih =>
    intro vp hvp
    unfold edgeCount
    rw [if_neg (fun hc => hc.1 hvp)]
    rw [ih _ (process_frame_counted_subset vp f.1 f.2 hvp)]

lemma edgeCount_le_one (id : ℤ) (fs : List (List Det × ℤ)) :
    ∀ vp : VideoProcessor, edgeCount vp id fs ≤ 1 := by
  induction fs with
  | nil => intro vp; exact Nat.zero_le 1
  | cons f rest ih =>
    intro vp
    unfold edgeCount
    by_cases hc : id ∉ vp.counted_vehicles ∧ id ∈ (vp.process_frame f.1 f.2).counted_vehicles
    · rw [if_pos hc, edgeCount_zero_of_mem id rest _ hc.2]
    · rw [if_neg hc]
      simpa using ih (vp.process_frame f.1 f.2)

/-! ## Rounding lemmas -/

lemma pyRound_intCast (m : ℤ) : pyRound (m : ℝ) = m := by
  unfold pyRound
  rw [Int.floor_intCast]
  rw [if_pos]
  rw [sub_self]
  norm_num

lemma pyRound2_intCast (m : ℤ) : pyRound2 (m : ℝ) = (m : ℝ) := by
  unfold pyRound2
  have h : ((m : ℝ) * 100) = ((m * 100 : ℤ) : ℝ) := by push_cast; ring
  rw [h, pyRound_intCast]
  push_cast
  field_simp

lemma runSE_keys (fs : List (List Det × ℤ)) :
    ∀ s : SpeedEstimator, ∀ k, k ∈ keysOf (runSE s fs).tracked_vehicles →
      k ∈ keysOf s.tracked_vehicles ∨ s.vehicle_id_counter ≤ k := by
  induction fs with
  | nil => intro s k hk; exact Or.inl hk
  | cons f rest ih =>
    intro s k hk
    rcases ih _ k hk with hk' | hk'
    · rcases update_tracking_keys s f.1 f.2 k hk' with h | h
      · exact Or.inl h
      · exact Or.inr h
    · exact Or.inr (le_trans (update_tracking_counter_le s f.1 f.2) hk')

/-! ## Color-detector lemmas -/

lemma argmax_go_mem (rest : List (String × ℕ)) :
    ∀ q : String × ℕ,
      (rest.foldl (fun best p => if p.2 > best.2 then p else best) q) ∈ q :: rest := by
  induction rest with
  | nil => intro q; exact List.mem_cons_self q []
  | cons p rest ih =>
    intro q
    simp only [List.foldl_cons]
    have h := ih (if p.2 > q.2 then p else q)
    rcases List.mem_cons.mp h with heq | hmem
    · rw [heq]
      by_cases hc : p.2 > q.2
      · rw [if_pos hc]
        exact List.mem_cons_of_mem _ (List.mem_cons_self _ _)
      · rw [if_neg hc]
        exact List.mem_cons_self _ _
    · exact List.mem_cons_of_mem _ (List.mem_cons_of_mem _ hmem)

lemma argmax_go_ge (rest : List (String × ℕ)) :
    ∀ q : String × ℕ, ∀ x ∈ q :: rest,
      x.2 ≤ (rest.foldl (fun best p => if p.2 > best.2 then p else best) q).2 := by
  induction rest with
  | nil =>
    intro q x hx
    simp only [List.foldl_nil]
    rw [List.mem_singleton.mp hx]
  | cons p rest ih =>
    intro q x hx
    simp only [List.foldl_cons]
    have hq : q.2 ≤ (if p.2 > q.2 then p else q).2 := by
      by_cases hc : p.2 > q.2
      · rw [if_pos hc]; exact le_of_lt hc
      · rw [if_neg hc]
    have hp : p.2 ≤ (if p.2 > q.2 then p else q).2 := by
      by_cases hc : p.2 > q.2
      · rw [if_pos hc]
      · rw [if_neg hc]; exact not_lt.mp hc
    rcases List.mem_cons.mp hx with rfl | hx'
    · exact le_trans hq (ih _ _ (List.mem_cons_self _ _))
    · rcases List.mem_cons.mp hx' with rfl | hx''
      · exact le_trans hp (ih _ _ (List.mem_cons_self _ _))
      · exact ih _ _ (List.mem_cons_of_mem _ hx'')

lemma foldr_max_eq_zero_iff (l : List ℕ) :
    l.foldr max 0 = 0 ↔ ∀ x ∈ l, x = 0 := by
  induction l with
  | nil => simp
  | cons a t ih =>
    simp only [List.foldr_cons, Nat.max_eq_zero_iff, ih, List.mem_cons]
    constructor
    · rintro ⟨ha, ht⟩ x (rfl | hx)
      · exact ha
      · exact ht x hx
    · intro h
      exact ⟨h a (Or.inl rfl), fun x hx => h x (Or.inr hx)⟩

lemma imgSize_of_rect (img : Img) (w : ℕ) (hw : ∀ row ∈ img, row.length = w) :
    imgSize img = img.length * w := by
  induction img with
  | nil => simp [imgSize]
  | cons row rest ih =>
    have hrow : row.length = w := hw row (List.mem_cons_self _ _)
    have hrest : imgSize rest = rest.length * w :=
      ih (fun r hr => hw r (List.mem_cons_of_mem _ hr))
    simp only [imgSize, List.map_cons, List.sum_cons] at *
    rw [hrow, hrest, List.length_cons]
    ring

lemma imgSize_eq_zero_of_rows_nil (img : Img) (h : ∀ row ∈ img, row = ([] : List HSV)) :
    imgSize img = 0 := by
  induction img with
  | nil => rfl
  | cons row rest ih =>
    have hrest := ih (fun r hr => h r (List.mem_cons_of_mem _ hr))
    simp only [imgSize, List.map_cons, List.sum_cons] at *
    rw [h row (List.mem_cons_self _ _), hrest]
    rfl

lemma pySliceNat_self_nil {α : Type} (a : ℕ) (l : List α) :
    pySliceNat a a l = [] := by
  unfold pySliceNat
  apply List.drop_eq_nil_of_le
  rw [List.length_take]
  exact min_le_left _ _

/-! ## Claim theorems -/

/-- C8: Calling `reset` twice in succession yields exactly the same state as
calling it once: after one reset the track store is empty, the track id
counter is 0, the counted-vehicles set is empty and the total vehicle count
is 0, and a second reset leaves that state unchanged. -/
theorem c8_reset_idempotent (vp : VideoProcessor) :
    vp.reset.reset = vp.reset ∧
    vp.reset.speed_estimator.tracked_vehicles = [] ∧
    vp.reset.speed_estimator.vehicle_id_counter = 0 ∧
    vp.reset.counted_vehicles = ∅ ∧
    vp.reset.total_vehicle_count = 0 :=
  ⟨rfl, rfl, rfl, rfl, rfl⟩

/-- C9: `match_detection` returns the same result for any two values of the
`previous_detections` argument; its output depends only on the detection's
data and on the globally stored tracked vehicles (and threshold), never on
the `previous_detections` parameter. -/
theorem c9_match_independent_of_previous (s s' : SpeedEstimator) (d : Det)
    (p1 p2 : List Det) :
    s.match_detection d p1 = s.match_detection d p2 ∧
    (s.tracked_vehicles = s'.tracked_vehicles →
      s.tracking_threshold = s'.tracking_threshold →
      s.match_detection d p1 = s'.match_detection d p2) := by
  constructor
  · rfl
  · intro h1 h2
    unfold SpeedEstimator.match_detection
    rw [h1, h2]

theorem c9_witness :
    ((⟨8, 30, 400, 50, [(3, [⟨⟨(0, 0, 4, 4), (2, 2)⟩, 7⟩])], 4, []⟩ :
        SpeedEstimator).tracked_vehicles =
      (⟨2, 25, 100, 50, [(3, [⟨⟨(0, 0, 4, 4), (2, 2)⟩, 7⟩])], 9, []⟩ :
        SpeedEstimator).tracked_vehicles) ∧
    ((⟨8, 30, 400, 50, [(3, [⟨⟨(0, 0, 4, 4), (2, 2)⟩, 7⟩])], 4, []⟩ :
        SpeedEstimator).tracking_threshold =
      (⟨2, 25, 100, 50, [(3, [⟨⟨(0, 0, 4, 4), (2, 2)⟩, 7⟩])], 9, []⟩ :
        SpeedEstimator).tracking_threshold) ∧
    (⟨8, 30, 400, 50, [(3, [⟨⟨(0, 0, 4, 4), (2, 2)⟩, 7⟩])], 4, []⟩ :
        SpeedEstimator).match_detection ⟨(0, 0, 2, 2), (1, 1)⟩
        [⟨(5, 5, 9, 9), (7, 7)⟩] =
      (⟨2, 25, 100, 50, [(3, [⟨⟨(0, 0, 4, 4), (2, 2)⟩, 7⟩])], 9, []⟩ :
        SpeedEstimator).match_detection ⟨(0, 0, 2, 2), (1, 1)⟩ [] :=
  ⟨rfl, rfl,
    (c9_match_independent_of_previous
      ⟨8, 30, 400, 50, [(3, [⟨⟨(0, 0, 4, 4), (2, 2)⟩, 7⟩])], 4, []⟩
      ⟨2, 25, 100, 50, [(3, [⟨⟨(0, 0, 4, 4), (2, 2)⟩, 7⟩])], 9, []⟩
      ⟨(0, 0, 2, 2), (1, 1)⟩ [⟨(5, 5, 9, 9), (7, 7)⟩] []).2 rfl rfl⟩

/-- C2: Within a session (no reset), the running total is incremented at most
once on behalf of any track id: the counted set only grows across
`process_frame`, total increments correspond exactly to newly counted ids,
and the number of frames at which a given id transitions from uncounted to
counted is at most one for any sequence of frames. -/
theorem c2_at_most_once_counting (vp : VideoProcessor) (ds : List Det) (n : ℤ)
    (frames : List (List Det × ℤ)) (id : ℤ) :
    vp.counted_vehicles ⊆ (vp.process_frame ds n).counted_vehicles ∧
    ((vp.process_frame ds n).total_vehicle_count + (vp.counted_vehicles.card : ℤ) =
      vp.total_vehicle_count + ((vp.process_frame ds n).counted_vehicles.card : ℤ)) ∧
    edgeCount vp id frames ≤ 1 :=
  ⟨process_frame_counted_subset vp ds n, process_frame_total vp ds n,
    edgeCount_le_one id frames vp⟩

/-- C4: After `update_tracking` processes frame `N`, a track is kept exactly
when (its history is empty or) its most recent entry's frame `L` satisfies
`N - L ≤ 30`; in particular a track last seen at frame `F` is still active
after processing frame `F + 29` and no longer active after `F + 31`. -/
theorem c4_eviction (s : SpeedEstimator) (ds : List Det) (N : ℤ)
    (id : ℤ) (h : List Entry) (e : Entry) :
    (∀ p, p ∈ (s.update_tracking ds N).1.tracked_vehicles ↔
        p ∈ (ds.foldl (updateStep N) (s, [])).1.tracked_vehicles ∧
          ∀ e', p.2.getLast? = some e' → N - e'.frame_number ≤ 30) ∧
    ((id, h) ∈ s.tracked_vehicles → h.getLast? = some e →
      (id, h) ∈ (s.update_tracking [] (e.frame_number + 29)).1.tracked_vehicles ∧
      (id, h) ∉ (s.update_tracking [] (e.frame_number + 31)).1.tracked_vehicles) := by
  constructor
  · intro p
    exact evictStale_tracked_mem _ N p
  · intro hmem hlast
    constructor
    · rw [show (s.update_tracking [] (e.frame_number + 29)).1
          = evictStale s (e.frame_number + 29) from rfl, evictStale_tracked_mem]
      refine ⟨hmem, ?_⟩
      intro e' he'
      rw [hlast] at he'
      cases he'
      omega
    · intro hin
      rw [show (s.update_tracking [] (e.frame_number + 31)).1
          = evictStale s (e.frame_number + 31) from rfl, evictStale_tracked_mem] at hin
      have h31 := hin.2 e hlast
      omega

theorem c4_witness :
    ((0, [⟨⟨(0, 0, 20, 20), (10, 10)⟩, 100⟩]) ∈
      (⟨8, 30, 400, 50, [(0, [⟨⟨(0, 0, 20, 20), (10, 10)⟩, 100⟩])], 1, []⟩ :
        SpeedEstimator).tracked_vehicles) ∧
    ([⟨⟨(0, 0, 20, 20), (10, 10)⟩, 100⟩] : List Entry).getLast? =
      some ⟨⟨(0, 0, 20, 20), (10, 10)⟩, 100⟩ ∧
    ((0, [⟨⟨(0, 0, 20, 20), (10, 10)⟩, 100⟩]) ∈
      ((⟨8, 30, 400, 50, [(0, [⟨⟨(0, 0, 20, 20), (10, 10)⟩, 100⟩])], 1, []⟩ :
        SpeedEstimator).update_tracking [] (100 + 29)).1.tracked_vehicles ∧
     (0, [⟨⟨(0, 0, 20, 20), (10, 10)⟩, 100⟩]) ∉
      ((⟨8, 30, 400, 50, [(0, [⟨⟨(0, 0, 20, 20), (10, 10)⟩, 100⟩])], 1, []⟩ :
        SpeedEstimator).update_tracking [] (100 + 31)).1.tracked_vehicles) :=
  ⟨by decide, by decide,
    (c4_eviction
      ⟨8, 30, 400, 50, [(0, [⟨⟨(0, 0, 20, 20), (10, 10)⟩, 100⟩])], 1, []⟩
      [] 0 0 [⟨⟨(0, 0, 20, 20), (10, 10)⟩, 100⟩]
      ⟨⟨(0, 0, 20, 20), (10, 10)⟩, 100⟩).2 (by decide) (by decide)⟩

/-- C6: Throughout any session of `update_tracking` calls from a fresh
estimator: no two simultaneously active tracks share an id (the key list is
duplicate-free), every active id is below the counter, the counter never
decreases, every id present after further frames is either an old id or at
least the old counter value (new tracks get fresh, strictly larger ids), and
an id that has disappeared (been evicted) never reappears. -/
theorem c6_track_id_uniqueness (ppm : ℚ) (fps roi thr : ℤ)
    (p1 p2 p3 : List (List Det × ℤ)) (id : ℤ) :
    (keysOf (runSE (SpeedEstimator.init ppm fps roi thr) p1).tracked_vehicles).Nodup ∧
    (id ∈ keysOf (runSE (SpeedEstimator.init ppm fps roi thr) p1).tracked_vehicles →
      id < (runSE (SpeedEstimator.init ppm fps roi thr) p1).vehicle_id_counter) ∧
    ((runSE (SpeedEstimator.init ppm fps roi thr) p1).vehicle_id_counter ≤
      (runSE (SpeedEstimator.init ppm fps roi thr) (p1 ++ p2)).vehicle_id_counter) ∧
    (∀ k ∈ keysOf (runSE (SpeedEstimator.init ppm fps roi thr) (p1 ++ p2)).tracked_vehicles,
      k ∈ keysOf (runSE (SpeedEstimator.init ppm fps roi thr) p1).tracked_vehicles ∨
        (runSE (SpeedEstimator.init ppm fps roi thr) p1).vehicle_id_counter ≤ k) ∧
    (id ∈ keysOf (runSE (SpeedEstimator.init ppm fps roi thr) p1).tracked_vehicles →
      id ∉ keysOf (runSE (SpeedEstimator.init ppm fps roi thr) (p1 ++ p2)).tracked_vehicles →
      id ∉ keysOf (runSE (SpeedEstimator.init ppm fps roi thr)
        ((p1 ++ p2) ++ p3)).tracked_vehicles) := by
  have hinit : SEInv (SpeedEstimator.init ppm fps roi thr) :=
    ⟨List.nodup_nil, by intro k hk; cases hk⟩
  have hinv1 := runSE_inv p1 _ hinit
  refine ⟨hinv1.1, hinv1.2 id, ?_, ?_, ?_⟩
  · rw [runSE_append]
    exact runSE_counter_le p2 _
  · intro k hk
    rw [runSE_append] at hk
    exact runSE_keys p2 _ k hk
  · intro hmem hnot
    have hlt : id < (runSE (SpeedEstimator.init ppm fps roi thr) p1).vehicle_id_counter :=
      hinv1.2 id hmem
    have hle : (runSE (SpeedEstimator.init ppm fps roi thr) p1).vehicle_id_counter ≤
        (runSE (SpeedEstimator.init ppm fps roi thr) (p1 ++ p2)).vehicle_id_counter := by
      rw [runSE_append]
      exact runSE_counter_le p2 _
    rw [runSE_append]
    exact runSE_not_mem p3 _ id hnot (lt_of_lt_of_le hlt hle)

theorem c6_witness :
    (0 ∈ keysOf (runSE (SpeedEstimator.init 8 30 400 50)
      [([⟨(0, 0, 20, 20), (10, 10)⟩], 0)]).tracked_vehicles) ∧
    (0 ∉ keysOf (runSE (SpeedEstimator.init 8 30 400 50)
      ([([⟨(0, 0, 20, 20), (10, 10)⟩], 0)] ++ [([], 40)])).tracked_vehicles) ∧
    (0 ∉ keysOf (runSE (SpeedEstimator.init 8 30 400 50)
      (([([⟨(0, 0, 20, 20), (10, 10)⟩], 0)] ++ [([], 40)]) ++
        [([⟨(0, 0, 20, 20), (10, 10)⟩], 41)])).tracked_vehicles) :=
  ⟨by decide, by decide,
    (c6_track_id_uniqueness 8 30 400 50
      [([⟨(0, 0, 20, 20), (10, 10)⟩], 0)] [([], 40)]
      [([⟨(0, 0, 20, 20), (10, 10)⟩], 41)] 0).2.2.2.2 (by decide) (by decide)⟩

/-- C5: `get_direction` returns `none` on fewer than 2 history entries;
otherwise, with `dx`, `dy` the differences from the first-ever recorded
center to the current detection's center, it returns `down` when
`|dy| > |dx|` and `dy > 0`, `up` when `|dy| > |dx|` and `dy ≤ 0`, `right`
when `|dy| ≤ |dx|` and `dx > 0`, and `left` otherwise; in particular motion
from (0,0) to (5,10) gives `down` and from (0,0) to (10,5) gives `right`. -/
theorem c5_get_direction (s : SpeedEstimator) (vid : ℤ) (d : Det) (first : Entry) :
    (((dictGet s.tracked_vehicles vid).getD []).length < 2 →
      s.get_direction vid d = none) ∧
    (2 ≤ ((dictGet s.tracked_vehicles vid).getD []).length →
      ((dictGet s.tracked_vehicles vid).getD []).head? = some first →
      ((|d.center.2 - first.det.center.2| > |d.center.1 - first.det.center.1| →
          d.center.2 - first.det.center.2 > 0 →
          s.get_direction vid d = some "down") ∧
       (|d.center.2 - first.det.center.2| > |d.center.1 - first.det.center.1| →
          d.center.2 - first.det.center.2 ≤ 0 →
          s.get_direction vid d = some "up") ∧
       (|d.center.2 - first.det.center.2| ≤ |d.center.1 - first.det.center.1| →
          d.center.1 - first.det.center.1 > 0 →
          s.get_direction vid d = some "right") ∧
       (|d.center.2 - first.det.center.2| ≤ |d.center.1 - first.det.center.1| →
          d.center.1 - first.det.center.1 ≤ 0 →
          s.get_direction vid d = some "left"))) ∧
    ((⟨8, 30, 400, 50,
        [(0, [⟨⟨(0, 0, 2, 2), (0, 0)⟩, 0⟩, ⟨⟨(0, 0, 2, 2), (3, 3)⟩, 1⟩])], 1, []⟩ :
      SpeedEstimator).get_direction 0 ⟨(0, 0, 2, 2), (5, 10)⟩ = some "down") ∧
    ((⟨8, 30, 400, 50,
        [(0, [⟨⟨(0, 0, 2, 2), (0, 0)⟩, 0⟩, ⟨⟨(0, 0, 2, 2), (3, 3)⟩, 1⟩])], 1, []⟩ :
      SpeedEstimator).get_direction 0 ⟨(0, 0, 2, 2), (10, 5)⟩ = some "right") := by
  refine ⟨?_, ?_, by decide, by decide⟩
  · intro hlen
    simp only [SpeedEstimator.get_direction]
    rw [if_pos hlen]
  · intro hlen hfirst
    have hbase : ∀ r : Option String,
        (if ((dictGet s.tracked_vehicles vid).getD []).length < 2 then none
         else match ((dictGet s.tracked_vehicles vid).getD []).head? with
          | none => none
          | some f =>
            if |d.center.2 - f.det.center.2| > |d.center.1 - f.det.center.1| then
              (if d.center.2 - f.det.center.2 > 0 then some "down" else some "up")
            else (if d.center.1 - f.det.center.1 > 0 then some "right"
              else some "left")) = r →
        s.get_direction vid d = r := by
      intro r hr
      simpa only [SpeedEstimator.get_direction] using hr
    refine ⟨?_, ?_, ?_, ?_⟩
    · intro hgt hdy
      apply hbase
      rw [if_neg (not_lt.mpr hlen), hfirst]
      simp only [if_pos hgt, if_pos hdy]
    · intro hgt hdy
      apply hbase
      rw [if_neg (not_lt.mpr hlen), hfirst]
      simp only [if_pos hgt, if_neg (not_lt.mpr hdy)]
    · intro hle hdx
      apply hbase
      rw [if_neg (not_lt.mpr hlen), hfirst]
      simp only [if_neg (not_lt.mpr hle), if_pos hdx]
    · intro hle hdx
      apply hbase
      rw [if_neg (not_lt.mpr hlen), hfirst]
      simp only [if_neg (not_lt.mpr hle), if_neg (not_lt.mpr hdx)]

theorem c5_witness :
    2 ≤ ((dictGet (⟨8, 30, 400, 50,
        [(0, [⟨⟨(0, 0, 2, 2), (0, 0)⟩, 0⟩, ⟨⟨(0, 0, 2, 2), (3, 3)⟩, 1⟩])], 1, []⟩ :
          SpeedEstimator).tracked_vehicles 0).getD []).length ∧
    ((dictGet (⟨8, 30, 400, 50,
        [(0, [⟨⟨(0, 0, 2, 2), (0, 0)⟩, 0⟩, ⟨⟨(0, 0, 2, 2), (3, 3)⟩, 1⟩])], 1, []⟩ :
          SpeedEstimator).tracked_vehicles 0).getD []).head? =
      some ⟨⟨(0, 0, 2, 2), (0, 0)⟩, 0⟩ ∧
    (⟨8, 30, 400, 50,
        [(0, [⟨⟨(0, 0, 2, 2), (0, 0)⟩, 0⟩, ⟨⟨(0, 0, 2, 2), (3, 3)⟩, 1⟩])], 1, []⟩ :
      SpeedEstimator).get_direction 0 ⟨(0, 0, 2, 2), (5, 10)⟩ = some "down" :=
  ⟨by decide, by decide,
    ((c5_get_direction
      ⟨8, 30, 400, 50,
        [(0, [⟨⟨(0, 0, 2, 2), (0, 0)⟩, 0⟩, ⟨⟨(0, 0, 2, 2), (3, 3)⟩, 1⟩])], 1, []⟩
      0 ⟨(0, 0, 2, 2), (5, 10)⟩ ⟨⟨(0, 0, 2, 2), (0, 0)⟩, 0⟩).2.1
      (by decide) (by decide)).1 (by decide) (by decide)⟩

/-- C3: A detection is appended to an existing track exactly when some
track's most recent center is strictly within the tracking threshold; the
matched track realizes the minimum Euclidean distance over all tracks, the
detection is appended to its history and the counter is unchanged; on a miss
a new track is created under the current counter value, with the counter
incremented by one. -/
theorem c3_association (s : SpeedEstimator) (d : Det) (prev : List Det)
    (cv : List (ℤ × Det)) (N : ℤ) :
    (s.match_detection d prev = none ↔
      ∀ p ∈ s.tracked_vehicles, ∀ lc, lastCenter? p.2 = some lc →
        ¬ edist d.center lc < (s.tracking_threshold : ℝ)) ∧
    (∀ i, s.match_detection d prev = some i →
      ∃ h e, (i, h) ∈ s.tracked_vehicles ∧ h.getLast? = some e ∧
        edist d.center e.det.center < (s.tracking_threshold : ℝ) ∧
        ∀ p ∈ s.tracked_vehicles, ∀ lc, lastCenter? p.2 = some lc →
          edist d.center e.det.center ≤ edist d.center lc) ∧
    (∀ i, s.match_detection d [] = some i →
      (updateStep N (s, cv) d).1.vehicle_id_counter = s.vehicle_id_counter ∧
      (updateStep N (s, cv) d).1.tracked_vehicles =
        s.tracked_vehicles.map
          (fun p => if p.1 = i then (p.1, p.2 ++ [⟨d, N⟩]) else p)) ∧
    (s.match_detection d [] = none →
      (updateStep N (s, cv) d).1.vehicle_id_counter = s.vehicle_id_counter + 1 ∧
      ((∀ k ∈ keysOf s.tracked_vehicles, k < s.vehicle_id_counter) →
        (updateStep N (s, cv) d).1.tracked_vehicles =
          s.tracked_vehicles ++ [(s.vehicle_id_counter, [⟨d, N⟩])])) := by
  refine ⟨?_, ?_, ?_, ?_⟩
  · refine (match_detection_none_iff s d prev).trans (Iff.intro ?_ ?_)
    · intro hno p hp lc hlc hlt
      exact hno p hp lc hlc
        ((edist_lt_intCast_iff d.center lc s.tracking_threshold).mp hlt)
    · intro hno p hp lc hlc hc
      exact hno p hp lc hlc
        ((edist_lt_intCast_iff d.center lc s.tracking_threshold).mpr hc)
  · intro i hi
    obtain ⟨m, h0, hlt2, ⟨⟨pi, ph⟩, hp, hpi, lc, hlc, hm⟩, hmin⟩ :=
      match_detection_some s d prev i hi
    obtain ⟨e, he, helc⟩ := Option.map_eq_some'.mp hlc
    subst hpi
    refine ⟨ph, e, hp, he, ?_, ?_⟩
    · rw [edist_lt_intCast_iff]
      exact ⟨h0, by rw [helc, hm]; exact hlt2⟩
    · intro p hp' lc' hlc'
      rw [edist_le_edist_iff]
      rw [helc, hm]
      exact hmin p hp' lc' hlc'
  · intro i hi
    unfold updateStep
    rw [hi]
    refine ⟨rfl, ?_⟩
    show dictAppendEntry s.tracked_vehicles i ⟨d, N⟩ = _
    unfold dictAppendEntry
    rw [if_pos ((containsKey_eq_true_iff _ _).mpr (match_detection_some_mem _ _ _ _ hi))]
  · intro hnone
    unfold updateStep
    rw [hnone]
    refine ⟨rfl, ?_⟩
    intro hbound
    show dictAppendEntry s.tracked_vehicles s.vehicle_id_counter ⟨d, N⟩ = _
    unfold dictAppendEntry
    rw [if_neg]
    intro hc
    exact lt_irrefl _ (hbound _ ((containsKey_eq_true_iff _ _).mp hc))

theorem c3_witness :
    ((⟨8, 30, 400, 50, [(0, [⟨⟨(0, 0, 20, 20), (10, 10)⟩, 5⟩])], 1, []⟩ :
        SpeedEstimator).match_detection ⟨(2, 2, 22, 22), (12, 12)⟩ [] = some 0) ∧
    ((updateStep 6
        ((⟨8, 30, 400, 50, [(0, [⟨⟨(0, 0, 20, 20), (10, 10)⟩, 5⟩])], 1, []⟩ :
          SpeedEstimator), ([] : List (ℤ × Det)))
        ⟨(2, 2, 22, 22), (12, 12)⟩).1.vehicle_id_counter = 1 ∧
      (updateStep 6
        ((⟨8, 30, 400, 50, [(0, [⟨⟨(0, 0, 20, 20), (10, 10)⟩, 5⟩])], 1, []⟩ :
          SpeedEstimator), ([] : List (ℤ × Det)))
        ⟨(2, 2, 22, 22), (12, 12)⟩).1.tracked_vehicles =
        [(0, [⟨⟨(0, 0, 20, 20), (10, 10)⟩, 5⟩])].map
          (fun p => if p.1 = 0 then
            (p.1, p.2 ++ [⟨⟨(2, 2, 22, 22), (12, 12)⟩, 6⟩]) else p)) :=
  ⟨by decide,
    (c3_association
      ⟨8, 30, 400, 50, [(0, [⟨⟨(0, 0, 20, 20), (10, 10)⟩, 5⟩])], 1, []⟩
      ⟨(2, 2, 22, 22), (12, 12)⟩ [] [] 6).2.2.1 0 (by decide)⟩

/-- Concrete 10-entry history for the C1 instance: centers move from
(100, 200) to (100, 300) over a frame-number span of 10 (frames 0..8, 10). -/
def c1Hist : List Entry :=
  [⟨⟨(90, 190, 110, 210), (100, 200)⟩, 0⟩,
   ⟨⟨(90, 200, 110, 220), (100, 210)⟩, 1⟩,
   ⟨⟨(90, 210, 110, 230), (100, 220)⟩, 2⟩,
   ⟨⟨(90, 220, 110, 240), (100, 230)⟩, 3⟩,
   ⟨⟨(90, 230, 110, 250), (100, 240)⟩, 4⟩,
   ⟨⟨(90, 240, 110, 260), (100, 250)⟩, 5⟩,
   ⟨⟨(90, 250, 110, 270), (100, 260)⟩, 6⟩,
   ⟨⟨(90, 260, 110, 280), (100, 270)⟩, 7⟩,
   ⟨⟨(90, 270, 110, 290), (100, 280)⟩, 8⟩,
   ⟨⟨(90, 290, 110, 310), (100, 300)⟩, 10⟩]

/-- Estimator with default calibration (pixels-per-meter 8.0, fps 30) holding
the C1 example track. -/
def c1State : SpeedEstimator := ⟨8, 30, 400, 50, [(0, c1Hist)], 1, []⟩

/-- C1: `estimate_speed` returns no estimate on fewer than 10 history
entries; with at least 10, it uses the first and last of the most recent 10:
the result is `((Euclidean pixel distance) / pixels_per_meter) /
((frame difference) / fps) * 3.6` rounded to 2 decimal places, and no
estimate when the frame difference is 0.  On the concrete 10-entry history
moving from (100,200) to (100,300) over a span of 10 frames at fps 30 and
pixels-per-meter 8.0, the result is 135.0 km/h. -/
theorem c1_estimate_speed (s : SpeedEstimator) (vid : ℤ) (d : Det)
    (first last : Entry) :
    (((dictGet s.tracked_vehicles vid).getD []).length < 10 →
      s.estimate_speed vid d = none) ∧
    (10 ≤ ((dictGet s.tracked_vehicles vid).getD []).length →
      (((dictGet s.tracked_vehicles vid).getD []).drop
        (((dictGet s.tracked_vehicles vid).getD []).length - 10)).head? = some first →
      (((dictGet s.tracked_vehicles vid).getD []).drop
        (((dictGet s.tracked_vehicles vid).getD []).length - 10)).getLast? = some last →
      s.fps ≠ 0 →
      ((last.frame_number - first.frame_number = 0 →
         s.estimate_speed vid d = none) ∧
       (last.frame_number - first.frame_number ≠ 0 →
         s.estimate_speed vid d = some (pyRound2
           (edist last.det.center first.det.center / (s.pixels_per_meter : ℝ) /
             (((last.frame_number - first.frame_number : ℤ) : ℝ) / (s.fps : ℝ)) *
             3.6))))) ∧
    c1State.estimate_speed 0 ⟨(90, 290, 110, 310), (100, 300)⟩ = some 135 := by
  have key : ∀ (s : SpeedEstimator) (vid : ℤ) (d : Det) (first last : Entry),
      10 ≤ ((dictGet s.tracked_vehicles vid).getD []).length →
      (((dictGet s.tracked_vehicles vid).getD []).drop
        (((dictGet s.tracked_vehicles vid).getD []).length - 10)).head? = some first →
      (((dictGet s.tracked_vehicles vid).getD []).drop
        (((dictGet s.tracked_vehicles vid).getD []).length - 10)).getLast? = some last →
      s.fps ≠ 0 →
      ((last.frame_number - first.frame_number = 0 →
         s.estimate_speed vid d = none) ∧
       (last.frame_number - first.frame_number ≠ 0 →
         s.estimate_speed vid d = some (pyRound2
           (edist last.det.center first.det.center / (s.pixels_per_meter : ℝ) /
             (((last.frame_number - first.frame_number : ℤ) : ℝ) / (s.fps : ℝ)) *
             3.6)))) := by
    intro s vid d first last h10 hfirst hlast hfps
    constructor
    · intro hfd
      simp only [SpeedEstimator.estimate_speed]
      rw [if_neg (not_lt.mpr h10), hfirst, hlast]
      dsimp only
      rw [if_pos]
      rw [div_eq_zero_iff]
      left
      exact_mod_cast hfd
    · intro hfd
      simp only [SpeedEstimator.estimate_speed]
      rw [if_neg (not_lt.mpr h10), hfirst, hlast]
      dsimp only
      rw [if_neg]
      · congr 1
        unfold edist
        push_cast
        ring
      · intro heq
        rcases div_eq_zero_iff.mp heq with h | h
        · exact hfd (by exact_mod_cast h)
        · exact hfps (by exact_mod_cast h)
  refine ⟨?_, key s vid d first last, ?_⟩
  · intro hlen
    simp only [SpeedEstimator.estimate_speed]
    rw [if_pos hlen]
  · have hc := (key c1State 0 ⟨(90, 290, 110, 310), (100, 300)⟩
      ⟨⟨(90, 190, 110, 210), (100, 200)⟩, 0⟩ ⟨⟨(90, 290, 110, 310), (100, 300)⟩, 10⟩
      (by decide) (by decide) (by decide) (by decide)).2 (by decide)
    rw [hc]
    congr 1
    unfold edist
    have hd2 : dist2 ((100 : ℤ), (300 : ℤ)) ((100 : ℤ), (200 : ℤ)) = 10000 := by decide
    dsimp only [c1State]
    rw [hd2]
    rw [show (((10000 : ℤ) : ℝ)) = 100 ^ 2 by norm_num,
      Real.sqrt_sq (by norm_num : (0 : ℝ) ≤ 100)]
    have h135 : pyRound2 ((135 : ℤ) : ℝ) = ((135 : ℤ) : ℝ) := pyRound2_intCast 135
    norm_num at h135 ⊢
    exact h135

theorem c1_witness :
    10 ≤ ((dictGet c1State.tracked_vehicles 0).getD []).length ∧
    (((dictGet c1State.tracked_vehicles 0).getD []).drop
      (((dictGet c1State.tracked_vehicles 0).getD []).length - 10)).head? =
      some ⟨⟨(90, 190, 110, 210), (100, 200)⟩, 0⟩ ∧
    (((dictGet c1State.tracked_vehicles 0).getD []).drop
      (((dictGet c1State.tracked_vehicles 0).getD []).length - 10)).getLast? =
      some ⟨⟨(90, 290, 110, 310), (100, 300)⟩, 10⟩ ∧
    c1State.fps ≠ 0 ∧
    ((10 : ℤ) - 0 ≠ 0) ∧
    c1State.estimate_speed 0 ⟨(90, 290, 110, 310), (100, 300)⟩ =
      some (pyRound2
        (edist ((100 : ℤ), (300 : ℤ)) ((100 : ℤ), (200 : ℤ)) /
          ((8 : ℚ) : ℝ) / ((((10 : ℤ) - 0 : ℤ) : ℝ) / ((30 : ℤ) : ℝ)) * 3.6)) :=
  ⟨by decide, by decide, by decide, by decide, by decide,
    ((c1_estimate_speed c1State 0 ⟨(90, 290, 110, 310), (100, 300)⟩
      ⟨⟨(90, 190, 110, 210), (100, 200)⟩, 0⟩
      ⟨⟨(90, 290, 110, 310), (100, 300)⟩, 10⟩).2.1
      (by decide) (by decide) (by decide) (by decide)).2 (by decide)⟩

lemma maskCount_le_imgSize (r : List HSV) (region : Img) :
    maskCount r region ≤ imgSize region := by
  unfold maskCount imgSize
  induction region with
  | nil => exact le_refl _
  | cons row rest ih =>
    simp only [List.map_cons, List.sum_cons]
    exact Nat.add_le_add (List.countP_le_length _) ih

/-- C7: `detect_color` returns "unknown" when the crop or its central
sub-crop is empty or when no pixel of the central sub-crop falls within any
of the 8 predefined HSV ranges; otherwise it returns a color whose range mask
matches the greatest number of pixels of the central sub-crop.  A crop filled
uniformly with HSV (0,0,255) classifies as "white". -/
theorem c7_detect_color (frame : Img) (d : Det) :
    (imgSize (cropRegion frame d) = 0 → detect_color frame d = "unknown") ∧
    (imgSize (centerRegion (cropRegion frame d)) = 0 →
      detect_color frame d = "unknown") ∧
    ((∀ c ∈ COLOR_RANGES, maskCount c.2 (centerRegion (cropRegion frame d)) = 0) →
      detect_color frame d = "unknown") ∧
    (imgSize (cropRegion frame d) ≠ 0 →
      ¬ (∀ c ∈ COLOR_RANGES, maskCount c.2 (centerRegion (cropRegion frame d)) = 0) →
      ∃ cnt, (detect_color frame d, cnt) ∈
          colorScores (centerRegion (cropRegion frame d)) ∧
        ∀ q ∈ colorScores (centerRegion (cropRegion frame d)), q.2 ≤ cnt) ∧
    detect_color (List.replicate 4 (List.replicate 4 ((0, 0, 255) : HSV)))
      ⟨(0, 0, 4, 4), (2, 2)⟩ = "white" := by
  have hscores_zero : ∀ region : Img,
      (∀ c ∈ COLOR_RANGES, maskCount c.2 region = 0) →
      (((colorScores region).map Prod.snd).foldr max 0 = 0) := by
    intro region hall
    rw [foldr_max_eq_zero_iff]
    intro x hx
    simp only [colorScores, List.map_map, List.mem_map] at hx
    obtain ⟨c, hc, rfl⟩ := hx
    exact hall c hc
  refine ⟨?_, ?_, ?_, ?_, by decide⟩
  · intro h
    unfold detect_color
    rw [if_pos h]
  · intro h
    unfold detect_color
    by_cases h1 : imgSize (cropRegion frame d) = 0
    · rw [if_pos h1]
    · rw [if_neg h1, if_pos h]
  · intro hall
    unfold detect_color
    by_cases h1 : imgSize (cropRegion frame d) = 0
    · rw [if_pos h1]
    · rw [if_neg h1]
      by_cases h2 : imgSize (centerRegion (cropRegion frame d)) = 0
      · rw [if_pos h2]
      · rw [if_neg h2, if_pos]
        simp only [Bool.or_eq_true, decide_eq_true_eq]
        exact Or.inr (hscores_zero _ hall)
  · intro hne hnz
    push_neg at hnz
    obtain ⟨c0, hc0, hcnt⟩ := hnz
    have hcenter : imgSize (centerRegion (cropRegion frame d)) ≠ 0 := by
      intro h0
      exact hcnt (Nat.le_zero.mp (h0 ▸ maskCount_le_imgSize c0.2 _))
    have hmax : ¬ (((colorScores (centerRegion (cropRegion frame d))).map
        Prod.snd).foldr max 0 = 0) := by
      rw [foldr_max_eq_zero_iff]
      intro hall
      exact hcnt (hall (maskCount c0.2 (centerRegion (cropRegion frame d)))
        (by
          simp only [colorScores, List.map_map, List.mem_map]
          exact ⟨c0, hc0, rfl⟩))
    have hnonempty : (colorScores (centerRegion (cropRegion frame d))).isEmpty = false := by
      simp [colorScores, COLOR_RANGES]
    unfold detect_color
    rw [if_neg hne, if_neg hcenter, if_neg]
    · rcases hs : colorScores (centerRegion (cropRegion frame d)) with _ | ⟨q, rest⟩
      · rw [hs] at hnonempty
        simp [List.isEmpty] at hnonempty
      · unfold argmaxFirst
        refine ⟨(rest.foldl (fun best p => if p.2 > best.2 then p else best) q).2,
          ?_, ?_⟩
        · exact argmax_go_mem rest q
        · intro p hp
          exact argmax_go_ge rest q p hp
    · simp only [Bool.or_eq_true, decide_eq_true_eq, hnonempty]
      intro hcontra
      rcases hcontra with hfalse | hzero
      · exact Bool.false_ne_true hfalse
      · exact hmax hzero

theorem c7_witness :
    imgSize (cropRegion (List.replicate 4 (List.replicate 4 ((0, 0, 255) : HSV)))
      ⟨(0, 0, 4, 4), (2, 2)⟩) ≠ 0 ∧
    ¬ (∀ c ∈ COLOR_RANGES, maskCount c.2
        (centerRegion (cropRegion
          (List.replicate 4 (List.replicate 4 ((0, 0, 255) : HSV)))
          ⟨(0, 0, 4, 4), (2, 2)⟩)) = 0) ∧
    (∃ cnt, (detect_color (List.replicate 4 (List.replicate 4 ((0, 0, 255) : HSV)))
        ⟨(0, 0, 4, 4), (2, 2)⟩, cnt) ∈
        colorScores (centerRegion (cropRegion
          (List.replicate 4 (List.replicate 4 ((0, 0, 255) : HSV)))
          ⟨(0, 0, 4, 4), (2, 2)⟩)) ∧
      ∀ q ∈ colorScores (centerRegion (cropRegion
          (List.replicate 4 (List.replicate 4 ((0, 0, 255) : HSV)))
          ⟨(0, 0, 4, 4), (2, 2)⟩)), q.2 ≤ cnt) :=
  ⟨by decide, by decide,
    (c7_detect_color (List.replicate 4 (List.replicate 4 ((0, 0, 255) : HSV)))
      ⟨(0, 0, 4, 4), (2, 2)⟩).2.2.2.1 (by decide) (by decide)⟩

/-- C10: a non-empty rectangular crop with height at most 3 or width at most
3 yields "unknown" regardless of pixel colors, because the central sub-crop
computed with quarter-size integer margins is empty. -/
theorem c10_small_crop_unknown (frame : Img) (d : Det) (hc wc : ℕ)
    (hlen : (cropRegion frame d).length = hc)
    (hrect : ∀ row ∈ cropRegion frame d, row.length = wc)
    (h1 : 1 ≤ hc) (h2 : 1 ≤ wc) (hsmall : hc ≤ 3 ∨ wc ≤ 3) :
    detect_color frame d = "unknown" := by
  have hsize : imgSize (cropRegion frame d) = hc * wc := by
    rw [imgSize_of_rect _ wc hrect, hlen]
  have hne : imgSize (cropRegion frame d) ≠ 0 := by
    rw [hsize]
    exact Nat.mul_ne_zero (by omega) (by omega)
  have hcenter : imgSize (centerRegion (cropRegion frame d)) = 0 := by
    rcases hsmall with hh | hw
    · have hm : hc / 4 = 0 := Nat.div_eq_of_lt (by omega)
      unfold centerRegion
      rw [hlen, hm]
      simp only [Nat.sub_zero, Nat.add_zero]
      rw [pySliceNat_self_nil]
      simp [imgSize]
    · have hm : wc / 4 = 0 := Nat.div_eq_of_lt (by omega)
      have hhead : ((cropRegion frame d).headD []).length = wc := by
        rcases hcrop : cropRegion frame d with _ | ⟨r, rest⟩
        · rw [hcrop] at hlen
          simp only [List.length_nil] at hlen
          exact absurd hlen (by omega)
        · simp only [List.headD_cons]
          exact hrect r (hcrop ▸ List.mem_cons_self r rest)
      apply imgSize_eq_zero_of_rows_nil
      intro row hrow
      unfold centerRegion at hrow
      rw [List.mem_map] at hrow
      obtain ⟨r, _, rfl⟩ := hrow
      rw [hhead, hm]
      simp only [Nat.sub_zero, Nat.add_zero]
      exact pySliceNat_self_nil _ _
  unfold detect_color
  rw [if_neg hne, if_pos hcenter]

theorem c10_witness :
    (cropRegion (List.replicate 2 (List.replicate 2 ((0, 0, 255) : HSV)))
      ⟨(0, 0, 2, 2), (1, 1)⟩).length = 2 ∧
    (∀ row ∈ cropRegion (List.replicate 2 (List.replicate 2 ((0, 0, 255) : HSV)))
      ⟨(0, 0, 2, 2), (1, 1)⟩, row.length = 2) ∧
    (1 ≤ 2) ∧ ((2 ≤ 3 ∨ 2 ≤ 3)) ∧
    detect_color (List.replicate 2 (List.replicate 2 ((0, 0, 255) : HSV)))
      ⟨(0, 0, 2, 2), (1, 1)⟩ = "unknown" :=
  ⟨by decide, by decide, by decide, by decide,
    c10_small_crop_unknown
      (List.replicate 2 (List.replicate 2 ((0, 0, 255) : HSV)))
      ⟨(0, 0, 2, 2), (1, 1)⟩ 2 2 (by decide) (by decide) (by decide) (by decide)
      (by decide)⟩

end Traffic
